import Mathlib

/-!
Verification of the ROM provisioning and orchestration subsystem of a
ROM-cartridge emulator (source file rp/src/emul.c, header rp/src/include/emul.h).

The embedding is byte-level: C strings and file contents are lists of natural
numbers (byte values, 0 to 255, with no interior zero byte since C strings are
NUL-terminated).  Pure helpers of emul.c are translated directly; libc and
platform primitives that are not part of the repository (tolower, strcasecmp,
atoi, strtol, qsort, memset, FatFS reads, pico-sdk time and flash calls) are
modelled from the spec, as noted on each definition.
-/

set_option maxRecDepth 4096

/-- Capacity of the ROM catalog, MAX_ROMS in emul.h. -/
def MAX_ROMS : Nat := 100

/-- Page size of the catalog display, MAX_ROMS_PER_PAGE in emul.h. -/
def MAX_ROMS_PER_PAGE : Nat := 20

/-- Bound of the filename fields, MAX_FILENAME_LENGTH in emul.h. -/
def MAX_FILENAME_LENGTH : Nat := 36

/-- Bound of the path fields, MAX_PATH_SIZE in emul.h. -/
def MAX_PATH_SIZE : Nat := 128

/-- Device mode value ROM_MODE_DIRECT in emul.h. -/
def ROM_MODE_DIRECT : Int := 0

/-- Device mode value ROM_MODE_DELAY in emul.h. -/
def ROM_MODE_DELAY : Int := 1

/-- Device mode value ROM_MODE_SETUP in emul.h. -/
def ROM_MODE_SETUP : Int := 255

/-- Menu level TERM_ROMS_MENU_MAIN in emul.h. -/
def TERM_ROMS_MENU_MAIN : Int := 0

/-- Menu level TERM_ROMS_MENU_BROWSE_SD in emul.h. -/
def TERM_ROMS_MENU_BROWSE_SD : Int := 1

/-- Menu level TERM_ROMS_MENU_BROWSE_NETWORK in emul.h. -/
def TERM_ROMS_MENU_BROWSE_NETWORK : Int := 2

/-- Menu level TERM_ROMS_MENU_LAUNCH in emul.h. -/
def TERM_ROMS_MENU_LAUNCH : Int := 3

/-- Submenu offset TERM_ROMS_MENU_SUBMENU in emul.h. -/
def TERM_ROMS_MENU_SUBMENU : Int := 256

/-- Download debounce delay DOWNLOAD_START_MS in emul.h, in milliseconds. -/
def DOWNLOAD_START_MS : Int := 3 * 1000

/-- Modelled from the spec: ASCII tolower of libc (not part of the repository).
Uppercase letters are mapped to lowercase, all other byte values unchanged. -/
def tolower (c : Nat) : Nat := if 65 ≤ c ∧ c ≤ 90 then c + 32 else c

/-- Modelled from the spec: isspace of libc (not part of the repository). -/
def isspaceB (c : Nat) : Bool := c = 32 || c = 9 || c = 10 || c = 11 || c = 12 || c = 13

/-- Modelled from the spec: isxdigit of libc (not part of the repository). -/
def isxdigitB (c : Nat) : Bool :=
  (48 ≤ c && c ≤ 57) || (65 ≤ c && c ≤ 70) || (97 ≤ c && c ≤ 102)

/-- Modelled from the spec: isdigit of libc (not part of the repository). -/
def isdigitB (c : Nat) : Bool := 48 ≤ c && c ≤ 57

/-- Value of an ASCII hexadecimal digit. -/
def hexVal (c : Nat) : Nat := if c ≤ 57 then c - 48 else if c ≤ 70 then c - 55 else c - 87

/-- Digit-accumulating loop of atoi. -/
def atoiDigits (acc : Int) : List Nat → Int
  | [] => acc
  | c :: rest => if isdigitB c then atoiDigits (acc * 10 + (c - 48 : Nat)) rest else acc

/-- Modelled from the spec: atoi of libc (not part of the repository): skip
leading whitespace, an optional sign, then consume decimal digits. -/
def atoi (s : List Nat) : Int :=
  match s.dropWhile isspaceB with
  | 45 :: rest => - atoiDigits 0 rest
  | 43 :: rest => atoiDigits 0 rest
  | rest => atoiDigits 0 rest

/-- Modelled from the spec: strcasecmp of libc (not part of the repository),
used by the compareRoms qsort comparator in emul.c.  Compares byte lists
case-insensitively, returning the difference of the first unequal folded pair. -/
def strcasecmpM : List Nat → List Nat → Int
  | [], [] => 0
  | [], b :: _ => 0 - (tolower b : Int)
  | a :: _, [] => (tolower a : Int)
  | a :: as, b :: bs =>
    if tolower a = tolower b then strcasecmpM as bs
    else (tolower a : Int) - (tolower b : Int)

/-- Content of a C string buffer: the bytes before the first NUL. -/
def cstring (l : List Nat) : List Nat := l.takeWhile (fun c => c ≠ 0)

/-- ROM catalog entry, struct ROM in emul.h.  Strings are byte lists. -/
structure Rom where
  filename : List Nat
  path : List Nat
  name : List Nat
  description : List Nat
  tags : List Nat
  size : Int
deriving DecidableEq, Inhabited, Repr

/-- Ordering used by the compareRoms comparator in emul.c: entry a precedes
entry b when strcasecmp of the filenames is nonpositive. -/
def romLe (a b : Rom) : Prop :=
  strcasecmpM (cstring a.filename) (cstring b.filename) ≤ 0

instance : DecidableRel romLe := fun a b =>
  inferInstanceAs (Decidable (_ ≤ _))

theorem tolower_eq_zero {c : Nat} : tolower c = 0 ↔ c = 0 := by
  unfold tolower; split <;> omega

theorem strcasecmpM_nil_le (c : List Nat) : strcasecmpM [] c ≤ 0 := by
  cases c <;> simp [strcasecmpM]

theorem strcasecmpM_total (a : List Nat) : ∀ b, strcasecmpM a b ≤ 0 ∨ strcasecmpM b a ≤ 0 := by
  induction a with
  | nil => intro b; exact Or.inl (strcasecmpM_nil_le b)
  | cons a0 as ih =>
    intro b
    cases b with
    | nil => exact Or.inr (strcasecmpM_nil_le _)
    | cons b0 bs =>
      by_cases h : tolower a0 = tolower b0
      · rcases ih bs with h1 | h1
        · exact Or.inl (by simp [strcasecmpM, h, h1])
        · exact Or.inr (by simp [strcasecmpM, h.symm, h1])
      · by_cases h2 : tolower a0 < tolower b0
        · refine Or.inl ?_
          simp only [strcasecmpM, if_neg h]
          omega
        · refine Or.inr ?_
          simp only [strcasecmpM, if_neg (fun hh : tolower b0 = tolower a0 => h hh.symm)]
          omega

theorem strcasecmpM_trans (a : List Nat) : ∀ b c, 0 ∉ a → 0 ∉ b →
    strcasecmpM a b ≤ 0 → strcasecmpM b c ≤ 0 → strcasecmpM a c ≤ 0 := by
  induction a with
  | nil => intro b c _ _ _ _; exact strcasecmpM_nil_le c
  | cons a0 as ih =>
    intro b c ha hb h1 h2
    have ha0 : a0 ≠ 0 := fun hh => ha (by simp [hh])
    cases b with
    | nil =>
      exfalso
      simp only [strcasecmpM] at h1
      exact ha0 (tolower_eq_zero.mp (by omega))
    | cons b0 bs =>
      have hb0 : b0 ≠ 0 := fun hh => hb (by simp [hh])
      cases c with
      | nil =>
        exfalso
        simp only [strcasecmpM] at h2
        exact hb0 (tolower_eq_zero.mp (by omega))
      | cons c0 cs =>
        simp only [strcasecmpM] at h1 h2 ⊢
        by_cases hab : tolower a0 = tolower b0
        · by_cases hbc : tolower b0 = tolower c0
          · rw [if_pos hab] at h1
            rw [if_pos hbc] at h2
            rw [if_pos (hab.trans hbc)]
            exact ih bs cs (fun hh => ha (by simp [hh])) (fun hh => hb (by simp [hh])) h1 h2
          · rw [if_neg hbc] at h2
            have : tolower a0 ≠ tolower c0 := fun hh => hbc (hab.symm.trans hh)
            rw [if_neg this]
            omega
        · rw [if_neg hab] at h1
          by_cases hbc : tolower b0 = tolower c0
          · have : tolower a0 ≠ tolower c0 := fun hh => hab (hh.trans hbc.symm)
            rw [if_neg this]
            omega
          · rw [if_neg hbc] at h2
            have : tolower a0 ≠ tolower c0 := by omega
            rw [if_neg this]
            omega

theorem zero_not_mem_cstring (l : List Nat) : 0 ∉ cstring l := by
  intro h
  have := List.mem_takeWhile_imp h
  simp at this

instance : IsTotal Rom romLe :=
  ⟨fun a b => strcasecmpM_total (cstring a.filename) (cstring b.filename)⟩

instance : IsTrans Rom romLe :=
  ⟨fun a b c h1 h2 =>
    strcasecmpM_trans (cstring a.filename) (cstring b.filename) (cstring c.filename)
      (zero_not_mem_cstring _) (zero_not_mem_cstring _) h1 h2⟩

/-- Modelled from the spec: libc qsort applied with the compareRoms comparator
of emul.c.  Only the sortedness of the result is relied upon; the model uses
insertion sort by the same ordering. -/
def sortRoms (l : List Rom) : List Rom := List.insertionSort romLe l

theorem sortRoms_sorted (l : List Rom) : List.Sorted romLe (sortRoms l) :=
  List.sorted_insertionSort romLe l

theorem sortRoms_length (l : List Rom) : (sortRoms l).length = l.length :=
  List.length_insertionSort romLe l

/-- Record of one pass of the programming loop in storeFileToFlash: the pair
flash_range_erase + flash_range_program executed with interrupts disabled,
at a byte offset relative to XIP_BASE, writing the given bytes. -/
structure ProgOp where
  offset : Nat
  data : List Nat
deriving DecidableEq, Repr

/-- Modelled from the spec: the CHANGE_ENDIANESS_BLOCK16 macro of memfunc.h
(header not part of the repository): a 16-bit-word endianness swap, exchanging
the two bytes of each consecutive pair. -/
def swap16 : List Nat → List Nat
  | a :: b :: rest => b :: a :: swap16 rest
  | l => l

/-- Padding step of the programming loop in storeFileToFlash (emul.c lines
145 to 153): a chunk whose length is not a multiple of FLASH_PAGE_SIZE is
extended to the next multiple.  The C code fills with memset value
FLASH_PAGE_SIZE, which as a byte is FLASH_PAGE_SIZE mod 256. -/
def padChunk (p : Nat) (chunk : List Nat) : List Nat :=
  if chunk.length % p = 0 then chunk
  else chunk ++ List.replicate (((chunk.length + p - 1) / p) * p - chunk.length) (p % 256)

/-- Read-and-program loop of storeFileToFlash (emul.c lines 132 to 167) over
the remaining file bytes.  Each f_read returns min s remaining bytes (byte
exact FatFS read, end of file signalled by a zero-length read); a zero-length
read ends the loop; otherwise the chunk is padded, endian-swapped, erased and
programmed, and the offset advances by the unpadded byte count read. -/
def storeLoop (s p : Nat) (off : Nat) (rest : List Nat) : List ProgOp :=
  if h : rest = [] ∨ s = 0 then []
  else
    ⟨off, swap16 (padChunk p (rest.take s))⟩ ::
      storeLoop s p (off + (rest.take s).length) (rest.drop s)
termination_by rest.length
decreasing_by
  rw [List.length_drop]
  rcases not_or.mp h with ⟨h1, h2⟩
  have h3 : rest.length ≠ 0 := fun hh => h1 (List.eq_nil_of_length_eq_zero hh)
  omega

/-- Header handling of storeFileToFlash (emul.c lines 102 to 127): when the
file size exceeds 4 and size minus 4 is an exact multiple of the sector size,
the first 4 bytes are read; if they are all zero they are skipped (STEEM
cartridge header), otherwise the file position is seeked back to the start.
The payload is the part of the file the programming loop then reads. -/
def payloadOf (s : Nat) (file : List Nat) : List Nat :=
  if file.length > 4 ∧ (file.length - 4) % s = 0 ∧ file.take 4 = [0, 0, 0, 0]
  then file.drop 4 else file

/-- Functional model of storeFileToFlash (emul.c lines 84 to 171) on the
success path: sector size s, page size p, file contents, destination flash
address and XIP_BASE.  Returns the sequence of erase+program operations. -/
def storeFileToFlash (s p : Nat) (file : List Nat) (flashAddress xipBase : Nat) : List ProgOp :=
  storeLoop s p (flashAddress - xipBase) (payloadOf s file)

/-- Decomposition of a byte list into consecutive chunks of at most s bytes,
mirroring the reads performed by the storeFileToFlash loop. -/
def sectorChunks (s : Nat) (l : List Nat) : List (List Nat) :=
  if h : l = [] ∨ s = 0 then []
  else l.take s :: sectorChunks s (l.drop s)
termination_by l.length
decreasing_by
  rw [List.length_drop]
  rcases not_or.mp h with ⟨h1, h2⟩
  have h3 : l.length ≠ 0 := fun hh => h1 (List.eq_nil_of_length_eq_zero hh)
  omega

/-- Reference shape of the programming operations: one operation per chunk,
data the endian swap of the page-padded chunk, and the destination offset
advancing by the unpadded length of each chunk. -/
def opsFromChunks (p base : Nat) : List (List Nat) → List ProgOp
  | [] => []
  | c :: cs => ⟨base, swap16 (padChunk p c)⟩ :: opsFromChunks p (base + c.length) cs

theorem storeLoop_eq_opsFromChunks (s p : Nat) :
    ∀ n (off : Nat) (l : List Nat), l.length ≤ n →
      storeLoop s p off l = opsFromChunks p off (sectorChunks s l) := by
  intro n
  induction n with
  | zero =>
    intro off l hl
    have hnil : l = [] := List.eq_nil_of_length_eq_zero (Nat.le_zero.mp hl)
    rw [storeLoop, sectorChunks]
    simp [hnil, opsFromChunks]
  | succ n ih =>
    intro off l hl
    rw [storeLoop, sectorChunks]
    by_cases h : l = [] ∨ s = 0
    · simp [h, opsFromChunks]
    · rw [dif_neg h, dif_neg h]
      rw [opsFromChunks]
      rcases not_or.mp h with ⟨h1, h2⟩
      have h3 : l.length ≠ 0 := fun hh => h1 (List.eq_nil_of_length_eq_zero hh)
      have : (l.drop s).length ≤ n := by
        rw [List.length_drop]; omega
      rw [ih (off + (l.take s).length) (l.drop s) this]

theorem sectorChunks_bounds (s : Nat) (hs : 0 < s) :
    ∀ n (l : List Nat), l.length ≤ n →
      ∀ c ∈ sectorChunks s l, 0 < c.length ∧ c.length ≤ s := by
  intro n
  induction n with
  | zero =>
    intro l hl c hc
    have hnil : l = [] := List.eq_nil_of_length_eq_zero (Nat.le_zero.mp hl)
    rw [sectorChunks] at hc
    simp [hnil] at hc
  | succ n ih =>
    intro l hl c hc
    rw [sectorChunks] at hc
    by_cases h : l = [] ∨ s = 0
    · simp [h] at hc
    · rw [dif_neg h] at hc
      rcases not_or.mp h with ⟨h1, h2⟩
      have h3 : l.length ≠ 0 := fun hh => h1 (List.eq_nil_of_length_eq_zero hh)
      rcases List.mem_cons.mp hc with hc | hc
      · subst hc
        rw [List.length_take]
        constructor <;> omega
      · have : (l.drop s).length ≤ n := by
          rw [List.length_drop]; omega
        exact ih (l.drop s) this c hc

theorem padChunk_shape (p : Nat) (hp : 0 < p) (c : List Nat) :
    p ∣ (padChunk p c).length ∧
      ∃ m, padChunk p c = c ++ List.replicate m (p % 256) ∧ m < p := by
  unfold padChunk
  by_cases h : c.length % p = 0
  · rw [if_pos h]
    refine ⟨Nat.dvd_of_mod_eq_zero h, 0, by simp, hp⟩
  · rw [if_neg h]
    have h2 : c.length % p < p := Nat.mod_lt _ hp
    have h3 : 0 < c.length % p := Nat.pos_of_ne_zero h
    have h1 : c.length / p * p + c.length % p = c.length := Nat.div_add_mod' c.length p
    have hexp : c.length + p - 1 = (c.length % p - 1) + (c.length / p + 1) * p := by
      rw [Nat.add_mul, Nat.one_mul]
      omega
    have hq : (c.length + p - 1) / p = c.length / p + 1 := by
      rw [hexp, Nat.add_mul_div_right _ _ hp, Nat.div_eq_of_lt (by omega : c.length % p - 1 < p),
        Nat.zero_add]
    rw [hq]
    constructor
    · have hlen : (c ++ List.replicate ((c.length / p + 1) * p - c.length) (p % 256)).length
          = (c.length / p + 1) * p := by
        simp only [List.length_append, List.length_replicate, Nat.add_mul, Nat.one_mul]
        omega
      rw [hlen]
      exact dvd_mul_left p _
    · refine ⟨_, rfl, ?_⟩
      rw [Nat.add_mul, Nat.one_mul]
      omega

/-- C1: for every successful provisioning call, storeFileToFlash reads the
source in chunks of at most one erase sector (the sector-chunk decomposition,
which ends exactly when a read returns zero bytes), pads a final partial chunk
up to programming-page granularity with the fixed fill byte p mod 256,
endian-swaps every chunk as 16-bit words before the erase+program of the
destination range, and advances the destination offset after each chunk by the
unpadded byte count actually read. -/
theorem storeFileToFlash_chunk_contract (s p : Nat) (hs : 0 < s) (hp : 0 < p)
    (file : List Nat) (flashAddress xipBase : Nat) :
    storeFileToFlash s p file flashAddress xipBase
        = opsFromChunks p (flashAddress - xipBase) (sectorChunks s (payloadOf s file))
      ∧ (∀ c ∈ sectorChunks s (payloadOf s file), 0 < c.length ∧ c.length ≤ s)
      ∧ (∀ c : List Nat, p ∣ (padChunk p c).length ∧
          ∃ m, padChunk p c = c ++ List.replicate m (p % 256) ∧ m < p) :=
  ⟨storeLoop_eq_opsFromChunks s p _ _ _ le_rfl,
    sectorChunks_bounds s hs _ _ le_rfl,
    fun c => padChunk_shape p hp c⟩

/-- Witness for storeFileToFlash_chunk_contract at sector size 8, page size 4,
a 10-byte file and flash address 100 over base 0. -/
theorem storeFileToFlash_chunk_contract_witness :
    0 < 8 ∧ 0 < 4 ∧
      (storeFileToFlash 8 4 [1, 2, 3, 4, 5, 6, 7, 8, 9, 10] 100 0
          = opsFromChunks 4 100 (sectorChunks 8 (payloadOf 8 [1, 2, 3, 4, 5, 6, 7, 8, 9, 10]))
        ∧ (∀ c ∈ sectorChunks 8 (payloadOf 8 [1, 2, 3, 4, 5, 6, 7, 8, 9, 10]),
            0 < c.length ∧ c.length ≤ 8)
        ∧ (∀ c : List Nat, 4 ∣ (padChunk 4 c).length ∧
            ∃ m, padChunk 4 c = c ++ List.replicate m (4 % 256) ∧ m < 4)) :=
  ⟨by decide, by decide,
    storeFileToFlash_chunk_contract 8 4 (by decide) (by decide)
      [1, 2, 3, 4, 5, 6, 7, 8, 9, 10] 100 0⟩

/-- C2: a source file of size 4 + k times the sector size (k at least 1) whose
first 4 bytes are all zero programs exactly the same operations at the same
destination as the file without those 4 leading bytes; and when the 4 leading
bytes are not all zero, the file position is rewound and every byte of the
file is treated as payload by the programming loop. -/
theorem storeFileToFlash_header_skip (s p k : Nat) (hs : 4 < s) (hk : 1 ≤ k)
    (file : List Nat) (hlen : file.length = 4 + k * s) (flashAddress xipBase : Nat) :
    (file.take 4 = [0, 0, 0, 0] →
      storeFileToFlash s p file flashAddress xipBase
        = storeFileToFlash s p (file.drop 4) flashAddress xipBase)
    ∧ (file.take 4 ≠ [0, 0, 0, 0] →
      storeFileToFlash s p file flashAddress xipBase
        = storeLoop s p (flashAddress - xipBase) file) := by
  have hks : s ≤ k * s := Nat.le_mul_of_pos_left s (by omega)
  constructor
  · intro hhdr
    have hcond : file.length > 4 ∧ (file.length - 4) % s = 0 ∧ file.take 4 = [0, 0, 0, 0] := by
      refine ⟨by omega, ?_, hhdr⟩
      have : file.length - 4 = k * s := by omega
      rw [this, Nat.mul_mod_left]
    have hpay : payloadOf s file = file.drop 4 := by
      unfold payloadOf
      rw [if_pos hcond]
    have hlen2 : (file.drop 4).length = k * s := by
      rw [List.length_drop]; omega
    have hmod : (k * s - 4) % s = s - 4 := by
      have h4 : k * s - 4 = (s - 4) + (k - 1) * s := by
        rw [Nat.sub_one_mul]
        omega
      rw [h4, Nat.add_mul_mod_self_right, Nat.mod_eq_of_lt (by omega)]
    have hpay2 : payloadOf s (file.drop 4) = file.drop 4 := by
      unfold payloadOf
      rw [if_neg]
      intro hcond2
      rw [hlen2] at hcond2
      have := hcond2.2.1
      omega
    unfold storeFileToFlash
    rw [hpay, hpay2]
  · intro hhdr
    have hpay : payloadOf s file = file := by
      unfold payloadOf
      rw [if_neg]
      intro hcond
      exact hhdr hcond.2.2
    unfold storeFileToFlash
    rw [hpay]

/-- Witness for storeFileToFlash_header_skip at sector size 5, k = 1, page
size 4, with a zero-header file of length 9 and a non-zero-header file. -/
theorem storeFileToFlash_header_skip_witness :
    4 < 5 ∧ 1 ≤ 1 ∧ ([0, 0, 0, 0, 6, 7, 8, 9, 10] : List Nat).length = 4 + 1 * 5 ∧
      ([0, 0, 0, 0, 6, 7, 8, 9, 10] : List Nat).take 4 = [0, 0, 0, 0] ∧
      storeFileToFlash 5 4 [0, 0, 0, 0, 6, 7, 8, 9, 10] 32 0
        = storeFileToFlash 5 4 (([0, 0, 0, 0, 6, 7, 8, 9, 10] : List Nat).drop 4) 32 0 :=
  ⟨by decide, by decide, by decide, by decide,
    (storeFileToFlash_header_skip 5 4 1 (by decide) (by decide)
      [0, 0, 0, 0, 6, 7, 8, 9, 10] (by decide) 32 0).1 (by decide)⟩

/-- Directory entry as returned by f_readdir in readRomsSdcard: a filename and
the AM_DIR attribute bit.  The model listing holds the entries returned before
the end-of-directory or error break. -/
structure DirEnt where
  fname : List Nat
  isDir : Bool
deriving DecidableEq, Repr

/-- Translation of hasValidExtension (emul.c lines 181 to 194): the byte after
the last dot must start a case-insensitive match of img, rom, stc or bin, and
the last dot may be neither absent nor the first character. -/
def hasValidExtension (fname : List Nat) : Bool :=
  match fname.reverse.findIdx? (fun c => c == 46) with
  | none => false
  | some j =>
    if fname.length - 1 - j = 0 then false
    else
      let ext := (fname.reverse.take j).reverse.map tolower
      ext == [105, 109, 103] || ext == [114, 111, 109] ||
        ext == [115, 116, 99] || ext == [98, 105, 110]

/-- Filter applied by the readRomsSdcard loop (emul.c lines 250 to 263):
directories, names starting with a dot, and names without a valid extension
are skipped. -/
def keepDirEnt (e : DirEnt) : Bool :=
  !e.isDir && !(e.fname.head? == some 46) && hasValidExtension e.fname

/-- Catalog entry built by readRomsSdcard (emul.c lines 266 to 276): filename
and name truncated to MAX_FILENAME_LENGTH - 1 bytes, path folder/filename.
The description, tags and size fields are not assigned by this code path and
are left empty in the model; no claim depends on them, nor on the strncat
length caps of the path. -/
def mkLocalRom (folder fname : List Nat) : Rom :=
  { filename := fname.take (MAX_FILENAME_LENGTH - 1)
    name := fname.take (MAX_FILENAME_LENGTH - 1)
    path := folder ++ [47] ++ fname
    description := []
    tags := []
    size := 0 }

/-- Effects emitted towards the terminal and the download engine by the menu
command handlers. -/
inductive Effect
  | renderMenu
  | navigate (page : Int)
  | showDetail (idx : Int)
  | startDownload (filename : List Nat)
  | message
deriving DecidableEq, Repr

/-- Mutable globals of emul.c relevant to the claims: the catalog (roms and
romsCount as one list), pagination, the stashed remote-entry index
downloadRomSelected (unset value -1), the menu level, the persisted settings
ACONFIG_PARAM_ROM_SELECTED and ACONFIG_PARAM_ROM_MODE, the keepActive flag and
the delayMode flag. -/
structure EmulState where
  roms : List Rom
  currentRomPage : Int
  maxRomPages : Int
  downloadRomSelected : Int
  menuLevel : Int
  romSelectedSetting : List Nat
  romModeSetting : Int
  keepActive : Bool
  delayMode : Bool
deriving DecidableEq, Repr

/-- Page count computed after each population event (emul.c lines 289 and
416): (romsCount + MAX_ROMS_PER_PAGE - 1) / MAX_ROMS_PER_PAGE. -/
def pagesOf (count : Nat) : Int :=
  ((count + MAX_ROMS_PER_PAGE - 1) / MAX_ROMS_PER_PAGE : Nat)

/-- Translation of readRomsSdcard (emul.c lines 228 to 290).  The listing is
none when f_opendir fails: the function returns at once, before the line that
resets romsCount, leaving the whole prior state in place.  On success the kept
entries fill the catalog up to MAX_ROMS (the loop breaks at capacity), the
array is qsorted by compareRoms and maxRomPages is recomputed. -/
def readRomsSdcard (folder : List Nat) (listing : Option (List DirEnt))
    (st : EmulState) : EmulState :=
  match listing with
  | none => st
  | some es =>
    let sorted :=
      sortRoms (((es.filter keepDirEnt).take MAX_ROMS).map (fun e => mkLocalRom folder e.fname))
    { st with roms := sorted, maxRomPages := pagesOf sorted.length }

/-- Translation of the EXTRACT_FIELD macro of readRomsCsv (emul.c lines 333 to
348): skip whitespace, require a double quote, copy up to cap bytes until the
closing quote, skip the closing quote if present, then skip commas and
whitespace.  Returns the field content and the rest of the line, or none when
the opening quote is missing (the line is then skipped).  Lines produced by
f_gets contain no NUL byte. -/
def extractField (cap : Nat) (s : List Nat) : Option (List Nat × List Nat) :=
  match s.dropWhile isspaceB with
  | 34 :: rest =>
    let content := (rest.takeWhile (fun c => c != 34)).take cap
    let rest2 := rest.drop content.length
    let rest3 := if rest2.head? == some 34 then rest2.tail else rest2
    some (content, rest3.dropWhile (fun c => c == 44 || isspaceB c))
  | _ => none

/-- Translation of the urlDecode loop body (emul.c lines 210 to 226) with the
remaining output room (destSize - 1 at the start): a percent followed by two
hexadecimal digits becomes one byte, any other byte is copied unchanged. -/
def urlDecodeAux : Nat → List Nat → List Nat
  | 0, _ => []
  | _, [] => []
  | room + 1, c :: rest =>
    if c = 37 then
      match rest with
      | a :: b :: rest2 =>
        if isxdigitB a && isxdigitB b then
          (16 * hexVal a + hexVal b) :: urlDecodeAux room rest2
        else 37 :: urlDecodeAux room rest
      | _ => 37 :: urlDecodeAux room rest
    else c :: urlDecodeAux room rest

/-- Translation of urlDecode (emul.c lines 210 to 226): decode into a buffer
of destSize bytes, writing at most destSize - 1 bytes. -/
def urlDecode (destSize : Nat) (src : List Nat) : List Nat :=
  urlDecodeAux (destSize - 1) src

/-- Translation of the per-line parse of readRomsCsv (emul.c lines 316 to
405): skip empty lines, extract the five quoted fields with the capacities of
the C buffers, percent-decode the first four, parse the size with atoi, and
build the entry.  The C code stores the raw field1 into filename (emul.c line
372) although its own comment says the decoded URL is stored; the model is
faithful to the code. -/
def parseCsvLine (romsFolder : List Nat) (line : List Nat) : Option Rom :=
  if line.head? = none ∨ line.head? = some 10 then none
  else
    match extractField (2 * MAX_PATH_SIZE - 1) line with
    | none => none
    | some (f1, r1) =>
    match extractField (2 * MAX_PATH_SIZE - 1) r1 with
    | none => none
    | some (f2, r2) =>
    match extractField (MAX_PATH_SIZE - 1) r2 with
    | none => none
    | some (f3, r3) =>
    match extractField (2 * MAX_PATH_SIZE - 1) r3 with
    | none => none
    | some (f4, r4) =>
    match extractField (MAX_PATH_SIZE / 4 - 1) r4 with
    | none => none
    | some (f5, _) =>
      some
        { filename := f1.take (MAX_FILENAME_LENGTH - 1)
          path := romsFolder ++ [47] ++ urlDecode (2 * MAX_PATH_SIZE) f1
          name := (urlDecode (2 * MAX_PATH_SIZE) f2).take (MAX_FILENAME_LENGTH - 1)
          description := (urlDecode MAX_PATH_SIZE f3).take (MAX_PATH_SIZE - 1)
          tags := (urlDecode (2 * MAX_PATH_SIZE) f4).take (MAX_FILENAME_LENGTH - 1)
          size := atoi f5 }

/-- Translation of readRomsCsv (emul.c lines 292 to 419).  The document is
none when f_open fails; romsCount is reset before the open, so both the open
failure and the missing header line leave an empty catalog with stale
pagination.  Otherwise the header line is discarded, each further line either
parses to an entry or is skipped, the catalog fills up to MAX_ROMS (the loop
breaks at capacity), is qsorted and maxRomPages is recomputed. -/
def readRomsCsv (romsFolder : List Nat) (doc : Option (List (List Nat)))
    (st : EmulState) : EmulState :=
  match doc with
  | none => { st with roms := [] }
  | some [] => { st with roms := [] }
  | some (_ :: lines) =>
    let sorted := sortRoms ((lines.filterMap (parseCsvLine romsFolder)).take MAX_ROMS)
    { st with roms := sorted, maxRomPages := pagesOf sorted.length }

/-- Translation of cmdNext (emul.c lines 537 to 542): advance one page when
not already on the last page; navigatePages re-renders the same page. -/
def cmdNext (st : EmulState) : EmulState :=
  if st.currentRomPage < st.maxRomPages - 1 then
    { st with currentRomPage := st.currentRomPage + 1 }
  else st

/-- Translation of cmdPrev (emul.c lines 544 to 550): retreat one page,
clamping at page 0. -/
def cmdPrev (st : EmulState) : EmulState :=
  let p := st.currentRomPage - 1
  { st with currentRomPage := if p < 0 then 0 else p }

/-- Translation of romDownloadUpdate (emul.c lines 785 to 793): only when
downloadRomSelected is strictly positive is the downloaded entry filename
persisted as ACONFIG_PARAM_ROM_SELECTED and the Main menu re-rendered. -/
def romDownloadUpdate (st : EmulState) : EmulState × List Effect :=
  if st.downloadRomSelected > 0 then
    ({ st with
        romSelectedSetting := (st.roms.getD st.downloadRomSelected.toNat default).filename,
        menuLevel := TERM_ROMS_MENU_MAIN },
      [Effect.renderMenu])
  else (st, [])

/-- Translation of cmdUnknown (emul.c lines 628 to 730), the default handler
interpreting the raw token by menu level. -/
def cmdUnknown (arg : List Nat) (st : EmulState) : EmulState × List Effect :=
  if st.menuLevel = TERM_ROMS_MENU_MAIN then
    ({ st with menuLevel := TERM_ROMS_MENU_MAIN }, [Effect.renderMenu])
  else if st.menuLevel = TERM_ROMS_MENU_BROWSE_SD then
    if 0 < atoi arg ∧ atoi arg ≤ (st.roms.length : Int) then
      ({ st with
          romSelectedSetting := (st.roms.getD (atoi arg - 1).toNat default).filename,
          menuLevel := TERM_ROMS_MENU_MAIN },
        [Effect.renderMenu])
    else (st, [Effect.message])
  else if st.menuLevel = TERM_ROMS_MENU_BROWSE_NETWORK then
    if 0 < atoi arg ∧ atoi arg ≤ (st.roms.length : Int) then
      ({ st with
          downloadRomSelected := atoi arg - 1,
          menuLevel := TERM_ROMS_MENU_BROWSE_NETWORK + TERM_ROMS_MENU_SUBMENU },
        [Effect.showDetail (atoi arg - 1)])
    else (st, [Effect.message])
  else if st.menuLevel = TERM_ROMS_MENU_BROWSE_NETWORK + TERM_ROMS_MENU_SUBMENU then
    if arg.head? = none ∨ arg.head? = some 10 then
      ({ st with romSelectedSetting := [], menuLevel := TERM_ROMS_MENU_MAIN },
        [Effect.startDownload
            (st.roms.getD st.downloadRomSelected.toNat default).filename,
          Effect.renderMenu])
    else
      ({ st with menuLevel := TERM_ROMS_MENU_BROWSE_NETWORK },
        [Effect.navigate st.currentRomPage])
  else if st.menuLevel = TERM_ROMS_MENU_LAUNCH then (st, [])
  else (st, [Effect.message])

/-- Translation of cmdLaunch (emul.c lines 592 to 626), abstracted over the
selected ROM setting (none when absent) and the FRESULT of storeFileToFlash
(0 is FR_OK).  Returns the new state and the number of storeFileToFlash
invocations performed. -/
def cmdLaunch (romFile : Option (List Nat)) (provisionResult : Nat)
    (st : EmulState) : EmulState × Nat :=
  match romFile with
  | none => ({ st with menuLevel := TERM_ROMS_MENU_LAUNCH }, 0)
  | some _ =>
    if provisionResult ≠ 0 then ({ st with menuLevel := TERM_ROMS_MENU_LAUNCH }, 1)
    else
      ({ st with
          menuLevel := TERM_ROMS_MENU_LAUNCH,
          romModeSetting := if st.delayMode then ROM_MODE_DELAY else ROM_MODE_DIRECT,
          keepActive := false },
        1)

/-- Download engine status values, download.h enum observed through
download_getStatus. -/
inductive DownloadStatus
  | idle
  | requested
  | notStarted
  | inProgress
  | completed
deriving DecidableEq, Repr

/-- Calls issued to the external download engine by one main-loop iteration. -/
inductive EngineCall
  | start
  | poll
  | finish
  | confirm
  | setStatus (s : DownloadStatus)
deriving DecidableEq, Repr

/-- Download orchestrator state observed by the main loop: the engine status
and the scheduled resume time startDownloadTime, in milliseconds. -/
structure DlState where
  status : DownloadStatus
  startDownloadTime : Int
deriving DecidableEq, Repr

/-- Translation of the download switch of the main loop (emul.c lines 1090 to
1119).  Modelled from the spec for the pico-sdk time primitives: the timeout
made by make_timeout_time_ms is now + delay, and absolute_time_diff_us from
now to the scheduled time is negative exactly when the scheduled time has
passed.  The engine owns the status, so the statuses after a start and after a
poll are parameters. -/
def downloadStep (now : Int) (afterStart afterPoll : DownloadStatus)
    (st : DlState) : DlState × List EngineCall :=
  match st.status with
  | .requested =>
    ({ status := .notStarted, startDownloadTime := now + DOWNLOAD_START_MS },
      [.setStatus .notStarted])
  | .notStarted =>
    if st.startDownloadTime - now < 0 then ({ st with status := afterStart }, [.start])
    else (st, [])
  | .inProgress => ({ st with status := afterPoll }, [.poll])
  | .completed => ({ st with status := .idle }, [.finish, .confirm, .setStatus .idle])
  | .idle => (st, [])

/-- Index accesses into the roms array performed by the display loop of
displayRomsPage (emul.c lines 429 to 464), with the int arithmetic of the C
code: start index pageNumber * pageSize clamped to romsCount - 1 from above,
end index start + pageSize clamped to romsCount. -/
def displayAccesses (romsCount pageSize pageNumber : Int) : List Int :=
  let ps := if pageSize ≤ 0 then 0 else pageSize
  let s1 := pageNumber * ps
  let s := if s1 ≥ romsCount then romsCount - 1 else s1
  let e1 := s + ps
  let e := if e1 > romsCount then romsCount else e1
  (List.range (e - s).toNat).map (fun i => s + i)

theorem pagesOf_ceil (n : Nat) :
    (n : Int) ≤ pagesOf n * 20 ∧ pagesOf n * 20 < (n : Int) + 20 := by
  simp only [pagesOf, MAX_ROMS_PER_PAGE]
  omega

/-- Sample menu state: empty catalog, one page, nothing stashed or selected. -/
def sampleState : EmulState :=
  { roms := [], currentRomPage := 0, maxRomPages := 1, downloadRomSelected := -1,
    menuLevel := 0, romSelectedSetting := [], romModeSetting := 255,
    keepActive := true, delayMode := false }

/-- Sample directory entry b.img. -/
def sampleEntryA : DirEnt := ⟨[98, 46, 105, 109, 103], false⟩

/-- Sample directory entry A.rom. -/
def sampleEntryB : DirEnt := ⟨[65, 46, 114, 111, 109], false⟩

/-- Sample catalog entry with filename a.rom. -/
def romA : Rom :=
  { filename := [97, 46, 114, 111, 109], path := [47, 97], name := [97],
    description := [], tags := [], size := 0 }

/-- Sample catalog entry with filename b.img. -/
def romB : Rom :=
  { filename := [98, 46, 105, 109, 103], path := [47, 98], name := [98],
    description := [], tags := [], size := 0 }

/-- C3: after a population event whose source opens successfully (a readable
folder for readRomsSdcard, a readable document with its header line for
readRomsCsv), the catalog is sorted case-insensitively by filename, holds at
most MAX_ROMS entries, and maxRomPages is the ceiling of the count divided by
the page size 20 (characterized by count ≤ 20 * pages < count + 20); and the
page-navigation commands next and previous keep a current page lying in
[0, maxRomPages) inside [0, maxRomPages). -/
theorem catalog_population_invariants (folder romsFolderSetting : List Nat)
    (es : List DirEnt) (hdr : List Nat) (lines : List (List Nat))
    (st1 st2 : EmulState) :
    (List.Sorted romLe (readRomsSdcard folder (some es) st1).roms
      ∧ (readRomsSdcard folder (some es) st1).roms.length ≤ MAX_ROMS
      ∧ (((readRomsSdcard folder (some es) st1).roms.length : Int)
            ≤ (readRomsSdcard folder (some es) st1).maxRomPages * 20
        ∧ (readRomsSdcard folder (some es) st1).maxRomPages * 20
            < ((readRomsSdcard folder (some es) st1).roms.length : Int) + 20))
    ∧ (List.Sorted romLe (readRomsCsv romsFolderSetting (some (hdr :: lines)) st2).roms
      ∧ (readRomsCsv romsFolderSetting (some (hdr :: lines)) st2).roms.length ≤ MAX_ROMS
      ∧ (((readRomsCsv romsFolderSetting (some (hdr :: lines)) st2).roms.length : Int)
            ≤ (readRomsCsv romsFolderSetting (some (hdr :: lines)) st2).maxRomPages * 20
        ∧ (readRomsCsv romsFolderSetting (some (hdr :: lines)) st2).maxRomPages * 20
            < ((readRomsCsv romsFolderSetting (some (hdr :: lines)) st2).roms.length : Int) + 20))
    ∧ (∀ st : EmulState, 0 ≤ st.currentRomPage → st.currentRomPage < st.maxRomPages →
        (0 ≤ (cmdNext st).currentRomPage
          ∧ (cmdNext st).currentRomPage < (cmdNext st).maxRomPages)
        ∧ (0 ≤ (cmdPrev st).currentRomPage
          ∧ (cmdPrev st).currentRomPage < (cmdPrev st).maxRomPages)) := by
  refine ⟨⟨sortRoms_sorted _, ?_, pagesOf_ceil _⟩,
    ⟨sortRoms_sorted _, ?_, pagesOf_ceil _⟩, ?_⟩
  · show (sortRoms _).length ≤ MAX_ROMS
    rw [sortRoms_length, List.length_map, List.length_take]
    exact Nat.min_le_left _ _
  · show (sortRoms _).length ≤ MAX_ROMS
    rw [sortRoms_length, List.length_take]
    exact Nat.min_le_left _ _
  · intro st h0 h1
    constructor
    · by_cases h : st.currentRomPage < st.maxRomPages - 1
      · have he : cmdNext st = { st with currentRomPage := st.currentRomPage + 1 } := by
          unfold cmdNext; rw [if_pos h]
        rw [he]
        refine ⟨?_, ?_⟩
        · show (0 : Int) ≤ st.currentRomPage + 1
          omega
        · show st.currentRomPage + 1 < st.maxRomPages
          omega
      · have he : cmdNext st = st := by
          unfold cmdNext; rw [if_neg h]
        rw [he]
        exact ⟨h0, h1⟩
    · have he : cmdPrev st
          = { st with currentRomPage :=
                if st.currentRomPage - 1 < 0 then 0 else st.currentRomPage - 1 } := rfl
      rw [he]
      refine ⟨?_, ?_⟩
      · show (0 : Int) ≤ if st.currentRomPage - 1 < 0 then 0 else st.currentRomPage - 1
        split <;> omega
      · show (if st.currentRomPage - 1 < 0 then 0 else st.currentRomPage - 1) < st.maxRomPages
        split <;> omega

/-- Witness for catalog_population_invariants: a two-entry folder scan and the
navigation commands from the sample state. -/
theorem catalog_population_invariants_witness :
    List.Sorted romLe (readRomsSdcard [47] (some [sampleEntryA, sampleEntryB]) sampleState).roms
    ∧ (0 ≤ sampleState.currentRomPage ∧ sampleState.currentRomPage < sampleState.maxRomPages)
    ∧ 0 ≤ (cmdNext sampleState).currentRomPage
    ∧ (cmdNext sampleState).currentRomPage < (cmdNext sampleState).maxRomPages := by
  have h := catalog_population_invariants [47] [] [sampleEntryA, sampleEntryB] [] []
    sampleState sampleState
  exact ⟨h.1.1, ⟨by decide, by decide⟩,
    (h.2.2 sampleState (by decide) (by decide)).1.1,
    (h.2.2 sampleState (by decide) (by decide)).1.2⟩

/-- C4 counterexample: with a prior catalog of one entry and a folder whose
open fails, the entry count after the call is 1, not 0 — the early return in
readRomsSdcard (emul.c line 237) happens before the line resetting romsCount. -/
theorem readRomsSdcard_openfail_counterexample :
    (readRomsSdcard [47] none { sampleState with roms := [romA] }).roms.length ≠ 0 := by
  decide

/-- C4 amended: when the directory open fails, readRomsSdcard aborts leaving
the entire catalog state unchanged (prior entries, count and pagination all
survive); the failure is only logged, never fatal. -/
theorem readRomsSdcard_openfail_preserves (folder : List Nat) (st : EmulState) :
    readRomsSdcard folder none st = st := rfl

/-- Sample well-formed remote catalog data line, in quoted-CSV bytes:
"%41%42.img","N%61me","desc","t","12" followed by a newline. -/
def csvLineSample : List Nat :=
  [34, 37, 52, 49, 37, 52, 50, 46, 105, 109, 103, 34, 44,
   34, 78, 37, 54, 49, 109, 101, 34, 44,
   34, 100, 101, 115, 99, 34, 44,
   34, 116, 34, 44,
   34, 49, 50, 34, 10]

/-- C5: on the sample line the parser percent-decodes the name, description
and tags fields before storage and parses the size, and urlDecode maps
%41%42.img to AB.img; but the stored filename is the raw URL field, not its
percent-decoding — emul.c line 372 stores field1 although the comment above
it says the decoded URL is stored. -/
theorem readRomsCsv_raw_filename_bug :
    urlDecode (2 * MAX_PATH_SIZE) [37, 52, 49, 37, 52, 50, 46, 105, 109, 103]
        = [65, 66, 46, 105, 109, 103]
    ∧ (parseCsvLine [47, 114] csvLineSample).map Rom.name = some [78, 97, 109, 101]
    ∧ (parseCsvLine [47, 114] csvLineSample).map Rom.description = some [100, 101, 115, 99]
    ∧ (parseCsvLine [47, 114] csvLineSample).map Rom.tags = some [116]
    ∧ (parseCsvLine [47, 114] csvLineSample).map Rom.size = some 12
    ∧ (parseCsvLine [47, 114] csvLineSample).map Rom.filename
        = some [37, 52, 49, 37, 52, 50, 46, 105, 109, 103]
    ∧ (parseCsvLine [47, 114] csvLineSample).map Rom.filename
        ≠ some (urlDecode (2 * MAX_PATH_SIZE) [37, 52, 49, 37, 52, 50, 46, 105, 109, 103]) := by
  decide

/-- C6: in one main-loop iteration, an observed Requested status transitions
to NotStarted in that same iteration with a resume time scheduled
DOWNLOAD_START_MS (3 seconds) in the future; in the NotStarted state the
engine start operation is never invoked while the scheduled resume time has
not yet passed; an observed Completed status invokes finish and confirm and
resets the status to Idle; and an Idle iteration performs no engine call, so
the finish+confirm+reset sequence runs exactly once per completed download. -/
theorem download_state_machine (now : Int) (afterStart afterPoll : DownloadStatus)
    (st : DlState) :
    (st.status = .requested →
      downloadStep now afterStart afterPoll st
        = ({ status := .notStarted, startDownloadTime := now + DOWNLOAD_START_MS },
            [.setStatus .notStarted]))
    ∧ (st.status = .notStarted → ¬ st.startDownloadTime - now < 0 →
        EngineCall.start ∉ (downloadStep now afterStart afterPoll st).2)
    ∧ (st.status = .completed →
        (downloadStep now afterStart afterPoll st).1.status = .idle
          ∧ (downloadStep now afterStart afterPoll st).2
              = [.finish, .confirm, .setStatus .idle])
    ∧ (st.status = .idle →
        downloadStep now afterStart afterPoll st = (st, [])) := by
  obtain ⟨s, t⟩ := st
  refine ⟨?_, ?_, ?_, ?_⟩
  · intro h
    cases s <;> simp_all [downloadStep]
  · intro h htime
    cases s <;> simp_all [downloadStep]
    rw [if_neg (show ¬ t < now by omega)]
    simp
  · intro h
    cases s <;> simp_all [downloadStep]
  · intro h
    cases s <;> simp_all [downloadStep]

/-- Witness for download_state_machine at concrete states for each of the
four observed statuses, with a NotStarted resume time still in the future. -/
theorem download_state_machine_witness :
    (downloadStep 10 .inProgress .completed ⟨.requested, 0⟩
        = ({ status := .notStarted, startDownloadTime := 10 + DOWNLOAD_START_MS },
            [.setStatus .notStarted]))
    ∧ EngineCall.start ∉ (downloadStep 10 .inProgress .completed ⟨.notStarted, 50⟩).2
    ∧ (downloadStep 10 .inProgress .completed ⟨.completed, 0⟩).1.status = .idle
    ∧ (downloadStep 10 .inProgress .completed ⟨.completed, 0⟩).2
        = [.finish, .confirm, .setStatus .idle]
    ∧ downloadStep 10 .inProgress .completed ⟨.idle, 0⟩ = (⟨.idle, 0⟩, []) := by
  have h1 := download_state_machine 10 .inProgress .completed ⟨.requested, 0⟩
  have h2 := download_state_machine 10 .inProgress .completed ⟨.notStarted, 50⟩
  have h3 := download_state_machine 10 .inProgress .completed ⟨.completed, 0⟩
  have h4 := download_state_machine 10 .inProgress .completed ⟨.idle, 0⟩
  exact ⟨h1.1 rfl, h2.2.1 rfl (by decide), (h3.2.2.1 rfl).1, (h3.2.2.1 rfl).2,
    h4.2.2.2 rfl⟩

/-- Sample state after a completed download of the first remote catalog row:
the stashed index is 0. -/
def stDownloadDone : EmulState :=
  { sampleState with roms := [romA, romB], downloadRomSelected := 0 }

/-- C7: romDownloadUpdate skips the stashed index 0 entirely — the state is
unchanged and no menu render happens, although 0 is an in-range stashed index
(the first catalog row; the unset value is -1, emul.c line 66) — while for the
stashed index 1 the downloaded entry filename is persisted as the selected ROM
setting and the Main menu is re-rendered.  The guard at emul.c line 787 is
downloadRomSelected > 0. -/
theorem romDownloadUpdate_skips_first_row :
    romDownloadUpdate stDownloadDone = (stDownloadDone, [])
    ∧ (romDownloadUpdate { stDownloadDone with downloadRomSelected := 1 }).1.romSelectedSetting
        = romB.filename
    ∧ (romDownloadUpdate { stDownloadDone with downloadRomSelected := 1 }).2
        = [Effect.renderMenu] := by
  decide

/-- Sample state in the remote-detail view with the stashed index 1. -/
def stDetail : EmulState :=
  { sampleState with
    roms := [romA, romB]
    downloadRomSelected := 1
    menuLevel := TERM_ROMS_MENU_BROWSE_NETWORK + TERM_ROMS_MENU_SUBMENU }

/-- C8 counterexample: confirming the download (empty input in the detail
view) leaves downloadRomSelected at 1; it is not returned to the unset value
-1 (emul.c line 66). -/
theorem downloadRomSelected_not_cleared :
    (cmdUnknown [] stDetail).1.downloadRomSelected = 1 ∧ (1 : Int) ≠ -1 := by
  decide

/-- C8 amended: the selected-remote-entry index is set exactly when the user
picks a valid numbered row while browsing the remote catalog, and it is never
returned to its unset value afterwards: confirmation, abandonment, any other
menu level, and download completion all leave it holding its previous value. -/
theorem downloadRomSelected_lifecycle (arg : List Nat) (st : EmulState) :
    (st.menuLevel = TERM_ROMS_MENU_BROWSE_NETWORK →
      ((0 < atoi arg ∧ atoi arg ≤ (st.roms.length : Int)) →
        (cmdUnknown arg st).1.downloadRomSelected = atoi arg - 1)
      ∧ (¬(0 < atoi arg ∧ atoi arg ≤ (st.roms.length : Int)) →
        (cmdUnknown arg st).1.downloadRomSelected = st.downloadRomSelected))
    ∧ (st.menuLevel ≠ TERM_ROMS_MENU_BROWSE_NETWORK →
        (cmdUnknown arg st).1.downloadRomSelected = st.downloadRomSelected)
    ∧ (romDownloadUpdate st).1.downloadRomSelected = st.downloadRomSelected := by
  refine ⟨fun hm => ⟨fun hv => ?_, fun hv => ?_⟩, fun hm => ?_, ?_⟩
  · unfold cmdUnknown
    rw [hm]
    rw [if_neg (by decide), if_neg (by decide), if_pos rfl, if_pos hv]
  · unfold cmdUnknown
    rw [hm]
    rw [if_neg (by decide), if_neg (by decide), if_pos rfl, if_neg hv]
  · unfold cmdUnknown
    by_cases h1 : st.menuLevel = TERM_ROMS_MENU_MAIN
    · rw [if_pos h1]
    · rw [if_neg h1]
      by_cases h2 : st.menuLevel = TERM_ROMS_MENU_BROWSE_SD
      · rw [if_pos h2]
        by_cases hv : 0 < atoi arg ∧ atoi arg ≤ (st.roms.length : Int)
        · rw [if_pos hv]
        · rw [if_neg hv]
      · rw [if_neg h2, if_neg hm]
        by_cases h4 : st.menuLevel = TERM_ROMS_MENU_BROWSE_NETWORK + TERM_ROMS_MENU_SUBMENU
        · rw [if_pos h4]
          by_cases h5 : arg.head? = none ∨ arg.head? = some 10
          · rw [if_pos h5]
          · rw [if_neg h5]
        · rw [if_neg h4]
          by_cases h6 : st.menuLevel = TERM_ROMS_MENU_LAUNCH
          · rw [if_pos h6]
          · rw [if_neg h6]
  · unfold romDownloadUpdate
    split <;> rfl

/-- Sample state browsing the remote catalog with two entries. -/
def stBrowse : EmulState :=
  { sampleState with roms := [romA, romB], menuLevel := TERM_ROMS_MENU_BROWSE_NETWORK }

/-- Witness for downloadRomSelected_lifecycle: picking row 1 of the remote
catalog stashes index 0, and a completed-download update leaves the stash
unchanged. -/
theorem downloadRomSelected_lifecycle_witness :
    (cmdUnknown [49] stBrowse).1.downloadRomSelected = atoi [49] - 1
    ∧ (romDownloadUpdate stBrowse).1.downloadRomSelected = stBrowse.downloadRomSelected := by
  have h := downloadRomSelected_lifecycle [49] stBrowse
  exact ⟨(h.1 (by decide)).1 (by decide), h.2.2⟩

/-- C9: when storeFileToFlash fails inside cmdLaunch, the provisioning is
invoked exactly once (no retry), the persisted device mode setting is left
unchanged and the keep-running flag is not cleared, so the interactive loop
continues; the device mode is written (delay or direct) and the loop exit
requested exactly when provisioning succeeds. -/
theorem cmdLaunch_error_no_commit (romFile : List Nat) (res : Nat) (st : EmulState) :
    (res ≠ 0 →
      (cmdLaunch (some romFile) res st).2 = 1
      ∧ (cmdLaunch (some romFile) res st).1.romModeSetting = st.romModeSetting
      ∧ (cmdLaunch (some romFile) res st).1.keepActive = st.keepActive)
    ∧ (cmdLaunch (some romFile) 0 st).1.romModeSetting
        = (if st.delayMode then ROM_MODE_DELAY else ROM_MODE_DIRECT)
    ∧ (cmdLaunch (some romFile) 0 st).1.keepActive = false := by
  refine ⟨fun h => ?_, ?_, ?_⟩
  · simp only [cmdLaunch]
    rw [if_pos h]
    exact ⟨rfl, rfl, rfl⟩
  · simp only [cmdLaunch]
    rw [if_neg (by decide : ¬ (0 : Nat) ≠ 0)]
  · simp only [cmdLaunch]
    rw [if_neg (by decide : ¬ (0 : Nat) ≠ 0)]

/-- Witness for cmdLaunch_error_no_commit at the failing FRESULT 5 from the
sample state. -/
theorem cmdLaunch_error_no_commit_witness :
    (5 : Nat) ≠ 0
    ∧ (cmdLaunch (some []) 5 sampleState).2 = 1
    ∧ (cmdLaunch (some []) 5 sampleState).1.romModeSetting = sampleState.romModeSetting
    ∧ (cmdLaunch (some []) 5 sampleState).1.keepActive = sampleState.keepActive := by
  have h := cmdLaunch_error_no_commit [] 5 sampleState
  exact ⟨by decide, (h.1 (by decide)).1, (h.1 (by decide)).2.1, (h.1 (by decide)).2.2⟩

/-- C10: with an empty catalog, the display loop of displayRomsPage at page 0
with the page size 20 reads the catalog index -1: the start index is clamped
to romsCount - 1 = -1 and the loop body runs once, so the claim that only
indices inside [0, count) are read — and that nothing is read when count is
0 — fails on the code. -/
theorem displayRomsPage_reads_negative_index :
    displayAccesses 0 20 0 = [-1]
    ∧ ¬ (∀ i ∈ displayAccesses 0 20 0, 0 ≤ i ∧ i < 0) := by
  decide
